import Mathlib

/-!
Shallow embedding of the my-wealth-atlas balance maintainer.

The authoritative source is the SQL migration (tables `accounts`,
`categories`, `transactions`, the enum `transaction_type`, and the
trigger function `update_account_balance` fired AFTER INSERT OR UPDATE
OR DELETE ON `transactions` FOR EACH ROW), together with the Dashboard
component (`fetchData` / `calculateTotals` in AddTransactionForm.tsx).

Monetary values (`DECIMAL(15,2)`) are modelled as integer cents (`Int`);
100.00 is written 10000.  Row identifiers (UUIDs) are modelled as `Nat`.
Fields irrelevant to every claim (user_id, description, timestamps,
category names/colors) are omitted; `categories` is kept as a list of
ids because category deletion cascades `SET NULL` onto transactions.
-/

namespace WealthAtlas

/-- Embeds the enum CREATE TYPE public.transaction_type AS ENUM
(income, expense): the closed set of transaction types. -/
inductive TransactionType where
  | income
  | expense
deriving DecidableEq, Repr

/-- Embeds the enum input conversion: a raw string literal is accepted by
the `transaction_type` column only when it is exactly "income" or
"expense"; any other value raises an invalid-input error. -/
def parseTransactionType (s : String) : Option TransactionType :=
  if s = "income" then some TransactionType.income
  else if s = "expense" then some TransactionType.expense
  else none

/-- A row of `public.accounts` (id, initial_balance, current_balance in
cents; user_id, name, description, currency, timestamps omitted). -/
structure Account where
  id : Nat
  initial_balance : Int
  current_balance : Int
deriving DecidableEq, Repr

/-- A row of `public.transactions` (id, account_id NOT NULL, optional
category_id, type, amount in cents, date; user_id, description and
timestamps omitted). -/
structure Transaction where
  id : Nat
  account_id : Nat
  category_id : Option Nat
  type : TransactionType
  amount : Int
  date : Nat
deriving DecidableEq, Repr

/-- The database state: the three tables the balance maintainer touches.
Categories are kept only as their ids. -/
structure DB where
  accounts : List Account
  categories : List Nat
  transactions : List Transaction
deriving DecidableEq, Repr

/-- The CASE expression of the trigger: income contributes +amount,
expense contributes -amount (the only two enum values). -/
def signedAmount (ty : TransactionType) (m : Int) : Int :=
  match ty with
  | TransactionType.income => m
  | TransactionType.expense => -m

/-- Embeds UPDATE public.accounts SET current_balance = current_balance + d
WHERE id = aid.  Rows whose id differs are untouched; a missing id makes
the statement a no-op (zero rows affected). -/
def applyDelta (accs : List Account) (aid : Nat) (d : Int) : List Account :=
  accs.map fun a =>
    if a.id = aid then { a with current_balance := a.current_balance + d } else a

/-- The INSERT branch of `update_account_balance`: add the new row's
signed amount to its account. -/
def insertTrigger (accs : List Account) (newTx : Transaction) : List Account :=
  applyDelta accs newTx.account_id (signedAmount newTx.type newTx.amount)

/-- The UPDATE branch of `update_account_balance`: first revert the OLD
row's signed amount from OLD.account_id, then apply the NEW row's signed
amount to NEW.account_id. -/
def updateTrigger (accs : List Account) (oldTx newTx : Transaction) : List Account :=
  applyDelta (applyDelta accs oldTx.account_id (-signedAmount oldTx.type oldTx.amount))
    newTx.account_id (signedAmount newTx.type newTx.amount)

/-- The DELETE branch of `update_account_balance`: revert the OLD row's
signed amount from OLD.account_id. -/
def deleteTrigger (accs : List Account) (oldTx : Transaction) : List Account :=
  applyDelta accs oldTx.account_id (-signedAmount oldTx.type oldTx.amount)

/-- Whether an account row with the given id exists (the FK target check
for transactions.account_id REFERENCES accounts(id)). -/
def hasAccountId (accs : List Account) (aid : Nat) : Bool :=
  accs.any fun a => a.id == aid

/-- FK check against the current database state. -/
def accountExists (db : DB) (aid : Nat) : Bool :=
  hasAccountId db.accounts aid

/-- Primary-key check: is a transaction id already in use. -/
def txIdUsed (db : DB) (tid : Nat) : Bool :=
  db.transactions.any fun t => t.id == tid

/-- Row lookup by primary key on `transactions`. -/
def findTx (db : DB) (tid : Nat) : Option Transaction :=
  db.transactions.find? fun t => t.id == tid

/-- INSERT INTO transactions, with the FK and PK checks of the schema,
followed by the AFTER INSERT row trigger.  `none` models a rejected
statement: nothing is persisted and no balance changes. -/
def insertTransaction (db : DB) (t : Transaction) : Option DB :=
  if accountExists db t.account_id && !txIdUsed db t.id then
    some { db with
      transactions := db.transactions ++ [t],
      accounts := insertTrigger db.accounts t }
  else none

/-- UPDATE transactions SET account_id, category_id, type, amount WHERE
id = tid, with the FK check on the new account, followed by the AFTER
UPDATE row trigger (OLD row reverted, NEW row applied). -/
def updateTransaction (db : DB) (tid : Nat) (aid : Nat) (cat : Option Nat)
    (ty : TransactionType) (m : Int) : Option DB :=
  match findTx db tid with
  | none => none
  | some oldTx =>
    let newTx : Transaction :=
      { oldTx with account_id := aid, category_id := cat, type := ty, amount := m }
    if accountExists db aid then
      some { db with
        transactions := db.transactions.map fun t => if t.id = tid then newTx else t,
        accounts := updateTrigger db.accounts oldTx newTx }
    else none

/-- DELETE FROM transactions WHERE id = tid, followed by the AFTER
DELETE row trigger; deleting a missing row affects zero rows. -/
def deleteTransaction (db : DB) (tid : Nat) : DB :=
  match findTx db tid with
  | none => db
  | some oldTx =>
    { db with
      transactions := db.transactions.filter fun t => t.id != tid,
      accounts := deleteTrigger db.accounts oldTx }

/-- DELETE FROM accounts WHERE id = aid.  The account row is removed and
the FK `transactions.account_id ... ON DELETE CASCADE` deletes every
referencing transaction; each cascaded delete fires the AFTER DELETE
balance trigger (whose UPDATE targets the already-removed account). -/
def deleteAccount (db : DB) (aid : Nat) : DB :=
  let remaining := db.accounts.filter fun a => a.id != aid
  let cascaded := db.transactions.filter fun t => t.account_id == aid
  { db with
    accounts := cascaded.foldl (fun accs t => deleteTrigger accs t) remaining,
    transactions := db.transactions.filter fun t => t.account_id != aid }

/-- The `SET NULL` image of a transaction row when category cid is
deleted: the reference is cleared, every other field is unchanged. -/
def clearCategory (cid : Nat) (t : Transaction) : Transaction :=
  if t.category_id = some cid then { t with category_id := none } else t

/-- DELETE FROM categories WHERE id = cid.  The FK
`transactions.category_id ... ON DELETE SET NULL` updates every
referencing transaction to category_id = NULL; each such row update
fires the AFTER UPDATE balance trigger with OLD the original row and
NEW the cleared row. -/
def deleteCategory (db : DB) (cid : Nat) : DB :=
  let affected := db.transactions.filter fun t => t.category_id == some cid
  { accounts := affected.foldl (fun accs t => updateTrigger accs t (clearCategory cid t))
      db.accounts,
    categories := db.categories.filter fun c => c != cid,
    transactions := db.transactions.map (clearCategory cid) }

/-- A transaction INSERT as submitted by the client (AddTransactionForm
handleSubmit): the type arrives as a raw string and the amount may be
absent (SQL NULL, e.g. when parseFloat produced NaN and it serialized to
null).  The enum conversion and the NOT NULL constraint are checked
before the row exists, hence before any trigger runs. -/
structure RawTxInsert where
  id : Nat
  account_id : Nat
  category_id : Option Nat
  type : String
  amount : Option Int
  date : Nat
deriving DecidableEq, Repr

/-- Raw INSERT path: enum conversion of the type string and the NOT NULL
check on amount, then the typed insert. -/
def insertTransactionRaw (db : DB) (r : RawTxInsert) : Option DB :=
  match parseTransactionType r.type, r.amount with
  | some ty, some m =>
      insertTransaction db
        { id := r.id, account_id := r.account_id, category_id := r.category_id,
          type := ty, amount := m, date := r.date }
  | _, _ => none

/-- Raw UPDATE path: enum conversion of the type string and the NOT NULL
check on amount, then the typed update. -/
def updateTransactionRaw (db : DB) (tid aid : Nat) (cat : Option Nat)
    (tyStr : String) (amount : Option Int) : Option DB :=
  match parseTransactionType tyStr, amount with
  | some ty, some m => updateTransaction db tid aid cat ty m
  | _, _ => none

/-- The three transaction mutations the balance maintainer reacts to. -/
inductive Op where
  | create (t : Transaction)
  | update (tid aid : Nat) (cat : Option Nat) (ty : TransactionType) (m : Int)
  | delete (tid : Nat)
deriving DecidableEq, Repr

/-- Processing one mutation: a rejected INSERT or UPDATE (FK or PK
failure) aborts atomically and leaves the state unchanged. -/
def applyOp (db : DB) : Op → DB
  | Op.create t => (insertTransaction db t).getD db
  | Op.update tid aid cat ty m => (updateTransaction db tid aid cat ty m).getD db
  | Op.delete tid => deleteTransaction db tid

/-- Spec-side sum: the signed contributions of exactly the transactions
currently referencing account aid. -/
def signedSum (txs : List Transaction) (aid : Nat) : Int :=
  txs.foldr (fun t s =>
    (if t.account_id = aid then signedAmount t.type t.amount else 0) + s) 0

/-- The balance invariant of the spec: every account's current_balance
equals its initial_balance plus the signed sum of the transactions
currently referencing it. -/
def BalanceInvariant (db : DB) : Prop :=
  ∀ a ∈ db.accounts,
    a.current_balance = a.initial_balance + signedSum db.transactions a.id

/-- Structural facts the schema enforces: primary keys are unique and
every transaction's account reference resolves. -/
def WellFormed (db : DB) : Prop :=
  (db.accounts.map Account.id).Nodup ∧
  (db.transactions.map Transaction.id).Nodup ∧
  ∀ t ∈ db.transactions, hasAccountId db.accounts t.account_id = true

/-- The current_balance of the account row with the given id, if any. -/
def currentBalanceOf (db : DB) (aid : Nat) : Option Int :=
  (db.accounts.find? fun a => a.id == aid).map Account.current_balance

/-- Sum of current_balance over a list of account rows. -/
def totalBalance (accs : List Account) : Int :=
  (accs.map Account.current_balance).foldr (· + ·) 0

end WealthAtlas

namespace WealthAtlas

theorem applyDelta_id_map (accs : List Account) (aid : Nat) (d : Int) :
    (applyDelta accs aid d).map Account.id = accs.map Account.id := by
  unfold applyDelta
  rw [List.map_map]
  apply List.map_congr_left
  intro a _
  by_cases h : a.id = aid <;> simp [Function.comp, h]

theorem applyDelta_comp (accs : List Account) (aid : Nat) (c d : Int) :
    applyDelta (applyDelta accs aid c) aid d = applyDelta accs aid (c + d) := by
  unfold applyDelta
  rw [List.map_map]
  apply List.map_congr_left
  intro a _
  by_cases h : a.id = aid
  · simp [Function.comp, h, add_assoc]
  · simp [Function.comp, h]

theorem applyDelta_zero (accs : List Account) (aid : Nat) :
    applyDelta accs aid 0 = accs := by
  induction accs with
  | nil => rfl
  | cons a rest ih =>
    simp only [applyDelta, List.map_cons] at ih ⊢
    rw [ih]
    by_cases h : a.id = aid
    · cases a
      simp
    · rw [if_neg h]

theorem applyDelta_of_forall_ne (accs : List Account) (aid : Nat) (d : Int)
    (h : ∀ a ∈ accs, a.id ≠ aid) : applyDelta accs aid d = accs := by
  induction accs with
  | nil => rfl
  | cons a rest ih =>
    simp only [applyDelta, List.map_cons] at ih ⊢
    have ha : a.id ≠ aid := h a (by simp)
    rw [if_neg ha, ih (fun a' ha' => h a' (by simp [ha']))]

theorem hasAccountId_applyDelta (accs : List Account) (x : Nat) (d : Int) (aid : Nat) :
    hasAccountId (applyDelta accs x d) aid = hasAccountId accs aid := by
  induction accs with
  | nil => rfl
  | cons a rest ih =>
    simp only [hasAccountId, applyDelta, List.map_cons, List.any_cons] at ih ⊢
    by_cases h : a.id = x
    · simp [h, ih]
    · simp [h, ih]

theorem find?_applyDelta_self (accs : List Account) (aid : Nat) (d : Int) :
    (applyDelta accs aid d).find? (fun a => a.id == aid) =
      ((accs.find? fun a => a.id == aid).map
        fun a => { a with current_balance := a.current_balance + d }) := by
  induction accs with
  | nil => rfl
  | cons a rest ih =>
    simp only [applyDelta, List.map_cons] at ih ⊢
    by_cases h : a.id = aid
    · simp [List.find?_cons, h]
    · simp [List.find?_cons, h, ih]

end WealthAtlas

namespace WealthAtlas

/-- Initial state of the worked example: one account with
initial_balance = current_balance = 100.00 (in cents) and no
transactions; account creation (AccountsManager handleAddAccount)
inserts the row with current_balance equal to initial_balance. -/
def scenarioDB : DB :=
  { accounts := [{ id := 1, initial_balance := 10000, current_balance := 10000 }],
    categories := [],
    transactions := [] }

/-- Transaction t1 of the worked example: income of 50.00. -/
def scenarioTx1 : Transaction :=
  { id := 1, account_id := 1, category_id := none,
    type := TransactionType.income, amount := 5000, date := 1 }

/-- Transaction t2 of the worked example: expense of 30.00. -/
def scenarioTx2 : Transaction :=
  { id := 2, account_id := 1, category_id := none,
    type := TransactionType.expense, amount := 3000, date := 2 }

/-- The four mutations of the worked example, amounts in cents. -/
def scenarioOps : List Op :=
  [Op.create scenarioTx1,
   Op.create scenarioTx2,
   Op.update 1 1 none TransactionType.income 8000,
   Op.delete 2]

/-- C9: starting from an account with initial_balance 100.00 and no
transactions, creating (income, 50.00) yields current_balance 150.00,
then creating (expense, 30.00) yields 120.00, then updating the first
amount to 80.00 yields 150.00, then deleting the second yields 180.00. -/
theorem concrete_scenario_balances :
    currentBalanceOf (List.foldl applyOp scenarioDB (scenarioOps.take 1)) 1 = some 15000 ∧
    currentBalanceOf (List.foldl applyOp scenarioDB (scenarioOps.take 2)) 1 = some 12000 ∧
    currentBalanceOf (List.foldl applyOp scenarioDB (scenarioOps.take 3)) 1 = some 15000 ∧
    currentBalanceOf (List.foldl applyOp scenarioDB scenarioOps) 1 = some 18000 := by
  decide

/-- C7: a transaction mutation whose type string is neither income nor
expense is rejected by the enum conversion before any row is written or
any trigger runs: both the raw insert and the raw update fail, and the
attempted state is unchanged, so no account balance changes. -/
theorem unknown_type_rejected (db : DB) (r : RawTxInsert)
    (tid aid : Nat) (cat : Option Nat) (m : Option Int)
    (h1 : r.type ≠ "income") (h2 : r.type ≠ "expense") :
    insertTransactionRaw db r = none ∧
    updateTransactionRaw db tid aid cat r.type m = none ∧
    (insertTransactionRaw db r).getD db = db ∧
    (updateTransactionRaw db tid aid cat r.type m).getD db = db := by
  have hp : parseTransactionType r.type = none := by
    unfold parseTransactionType
    rw [if_neg h1, if_neg h2]
  have hins : insertTransactionRaw db r = none := by
    unfold insertTransactionRaw
    rw [hp]
  have hupd : updateTransactionRaw db tid aid cat r.type m = none := by
    unfold updateTransactionRaw
    rw [hp]
  exact ⟨hins, hupd, by rw [hins]; rfl, by rw [hupd]; rfl⟩

/-- A client submission with a type string outside the enum. -/
def unknownTypeRaw : RawTxInsert :=
  { id := 9, account_id := 1, category_id := none, type := "transfer",
    amount := some 100, date := 0 }

theorem unknown_type_rejected_witness :
    insertTransactionRaw scenarioDB unknownTypeRaw = none ∧
    updateTransactionRaw scenarioDB 1 1 none unknownTypeRaw.type (some 100) = none ∧
    (insertTransactionRaw scenarioDB unknownTypeRaw).getD scenarioDB = scenarioDB ∧
    (updateTransactionRaw scenarioDB 1 1 none unknownTypeRaw.type (some 100)).getD scenarioDB
      = scenarioDB :=
  unknown_type_rejected scenarioDB unknownTypeRaw 1 1 none (some 100)
    (by decide) (by decide)

end WealthAtlas

namespace WealthAtlas

/-- Account table for the negative-amount example: one account with
balance 100.00. -/
def negAmountDB : DB :=
  { accounts := [{ id := 1, initial_balance := 10000, current_balance := 10000 }],
    categories := [],
    transactions := [] }

/-- A client submission whose amount is negative: the form input has no
lower bound, parseFloat keeps the sign, and neither the table definition
nor the trigger checks it. -/
def negAmountRaw : RawTxInsert :=
  { id := 1, account_id := 1, category_id := none, type := "income",
    amount := some (-500), date := 0 }

/-- The row the negative-amount submission ends up persisting. -/
def negAmountPersisted : Transaction :=
  { id := 1, account_id := 1, category_id := none,
    type := TransactionType.income, amount := -500, date := 0 }

/-- C8 counterexample: a creation whose amount is the negative number
-5.00 is NOT rejected.  The transaction row is persisted and the
account's current_balance changes (drops from 100.00 to 95.00), against
the claim that such a mutation is rejected with no persisted record and
no balance change. -/
theorem negative_amount_accepted_cex :
    negAmountRaw.amount = some (-500) ∧ ((-500 : Int) < 0) ∧
    insertTransactionRaw negAmountDB negAmountRaw =
      some { accounts := [{ id := 1, initial_balance := 10000, current_balance := 9500 }],
             categories := [],
             transactions := [negAmountPersisted] } := by
  decide

/-- C8 amended: a creation or update whose amount is missing (SQL NULL,
the image of an unparseable form value) is rejected by the NOT NULL
constraint with nothing persisted; but there is no non-negativity
validation: when the type parses and the FK and PK checks succeed, the
insert is accepted for ANY amount, negative ones included, the row is
persisted, and the account's current_balance changes by the signed
contribution. -/
theorem amount_validation_amended (db : DB) (r : RawTxInsert)
    (ty : TransactionType) (m : Int)
    (hty : parseTransactionType r.type = some ty) (hm : r.amount = some m)
    (hacc : accountExists db r.account_id = true) (hpk : txIdUsed db r.id = false) :
    (∀ r' : RawTxInsert, r'.amount = none → insertTransactionRaw db r' = none) ∧
    (∀ (tid aid : Nat) (cat : Option Nat) (tyStr : String),
      updateTransactionRaw db tid aid cat tyStr none = none) ∧
    (insertTransactionRaw db r).map DB.transactions =
      some (db.transactions ++
        [{ id := r.id, account_id := r.account_id, category_id := r.category_id,
           type := ty, amount := m, date := r.date }]) ∧
    (insertTransactionRaw db r).map (fun d => currentBalanceOf d r.account_id) =
      some ((currentBalanceOf db r.account_id).map fun b => b + signedAmount ty m) := by
  have hraw : insertTransactionRaw db r =
      insertTransaction db
        { id := r.id, account_id := r.account_id, category_id := r.category_id,
          type := ty, amount := m, date := r.date } := by
    unfold insertTransactionRaw
    rw [hty, hm]
  have hins : insertTransaction db
        { id := r.id, account_id := r.account_id, category_id := r.category_id,
          type := ty, amount := m, date := r.date } =
      some { db with
        transactions := db.transactions ++
          [{ id := r.id, account_id := r.account_id, category_id := r.category_id,
             type := ty, amount := m, date := r.date }],
        accounts := insertTrigger db.accounts
          { id := r.id, account_id := r.account_id, category_id := r.category_id,
            type := ty, amount := m, date := r.date } } := by
    unfold insertTransaction
    rw [if_pos]
    rw [hacc, hpk]
    rfl
  refine ⟨?_, ?_, ?_, ?_⟩
  · intro r' h
    unfold insertTransactionRaw
    rw [h]
    cases parseTransactionType r'.type <;> rfl
  · intro tid aid cat tyStr
    unfold updateTransactionRaw
    cases parseTransactionType tyStr <;> rfl
  · rw [hraw, hins]
    rfl
  · rw [hraw, hins]
    rw [Option.map_some']
    unfold currentBalanceOf insertTrigger
    rw [find?_applyDelta_self]
    cases db.accounts.find? fun a => a.id == r.account_id <;> simp

theorem amount_validation_amended_witness :
    (∀ r' : RawTxInsert, r'.amount = none → insertTransactionRaw negAmountDB r' = none) ∧
    (∀ (tid aid : Nat) (cat : Option Nat) (tyStr : String),
      updateTransactionRaw negAmountDB tid aid cat tyStr none = none) ∧
    (insertTransactionRaw negAmountDB negAmountRaw).map DB.transactions =
      some (negAmountDB.transactions ++
        [{ id := negAmountRaw.id, account_id := negAmountRaw.account_id,
           category_id := negAmountRaw.category_id,
           type := TransactionType.income, amount := -500, date := negAmountRaw.date }]) ∧
    (insertTransactionRaw negAmountDB negAmountRaw).map
        (fun d => currentBalanceOf d negAmountRaw.account_id) =
      some ((currentBalanceOf negAmountDB negAmountRaw.account_id).map
        fun b => b + signedAmount TransactionType.income (-500)) :=
  amount_validation_amended negAmountDB negAmountRaw TransactionType.income (-500)
    (by decide) (by decide) (by decide) (by decide)

end WealthAtlas

namespace WealthAtlas

theorem hasAccountId_iff (accs : List Account) (aid : Nat) :
    hasAccountId accs aid = true ↔ ∃ a ∈ accs, a.id = aid := by
  unfold hasAccountId
  simp [List.any_eq_true]

theorem exists_id_applyDelta (accs : List Account) (x : Nat) (d : Int) (aid : Nat)
    (h : ∃ a ∈ accs, a.id = aid) : ∃ a ∈ applyDelta accs x d, a.id = aid := by
  obtain ⟨a, ha, haid⟩ := h
  refine ⟨if a.id = x then { a with current_balance := a.current_balance + d } else a, ?_, ?_⟩
  · unfold applyDelta
    exact List.mem_map_of_mem _ ha
  · by_cases hx : a.id = x
    · rw [if_pos hx]
      exact haid
    · rw [if_neg hx]
      exact haid

theorem totalBalance_cons (a : Account) (rest : List Account) :
    totalBalance (a :: rest) = a.current_balance + totalBalance rest := rfl

theorem totalBalance_applyDelta (accs : List Account) (aid : Nat) (d : Int)
    (hnodup : (accs.map Account.id).Nodup)
    (hmem : ∃ a ∈ accs, a.id = aid) :
    totalBalance (applyDelta accs aid d) = totalBalance accs + d := by
  induction accs with
  | nil => simp at hmem
  | cons a rest ih =>
    simp only [List.map_cons, List.nodup_cons] at hnodup
    obtain ⟨hna, hrest⟩ := hnodup
    by_cases h : a.id = aid
    · have hrestne : ∀ b ∈ rest, b.id ≠ aid := by
        intro b hb hbid
        exact hna (by rw [h, ← hbid]; exact List.mem_map_of_mem Account.id hb)
      have hsplit : applyDelta (a :: rest) aid d =
          ({ a with current_balance := a.current_balance + d }) :: applyDelta rest aid d := by
        simp [applyDelta, h]
      rw [hsplit, applyDelta_of_forall_ne rest aid d hrestne,
        totalBalance_cons, totalBalance_cons]
      ring
    · obtain ⟨b, hb, hbid⟩ := hmem
      rcases List.mem_cons.mp hb with rfl | hbrest
      · exact absurd hbid h
      have hsplit : applyDelta (a :: rest) aid d = a :: applyDelta rest aid d := by
        simp [applyDelta, h]
      rw [hsplit, totalBalance_cons, totalBalance_cons, ih hrest ⟨b, hbrest, hbid⟩]
      ring

theorem foldl_fixed {α β : Type _} (f : α → β → α) (a : α) :
    ∀ (l : List β), (∀ b ∈ l, f a b = a) → l.foldl f a = a := by
  intro l
  induction l with
  | nil =>
    intro _
    rfl
  | cons b rest ih =>
    intro h
    rw [List.foldl_cons, h b (by simp)]
    exact ih (fun b' hb' => h b' (by simp [hb']))

/-- C2: updating a transaction's amount from M1 to M2 while leaving type
and account unchanged changes that account's current_balance by exactly
signed(T, M2) - signed(T, M1), and the current_balance of every other
account is unchanged (the resulting accounts table is the old one with
only the row of the transaction's account adjusted by that net delta). -/
theorem update_amount_same_account_delta (db : DB) (tid : Nat) (oldTx : Transaction)
    (cat : Option Nat) (m2 : Int)
    (hfind : findTx db tid = some oldTx)
    (hacc : accountExists db oldTx.account_id = true) :
    (updateTransaction db tid oldTx.account_id cat oldTx.type m2).map DB.accounts =
      some (db.accounts.map fun a =>
        if a.id = oldTx.account_id then
          { a with current_balance := a.current_balance +
              (signedAmount oldTx.type m2 - signedAmount oldTx.type oldTx.amount) }
        else a) := by
  unfold updateTransaction
  rw [hfind]
  simp only [hacc, if_true, Option.map_some']
  unfold updateTrigger
  simp only []
  rw [applyDelta_comp]
  unfold applyDelta
  congr 1
  apply List.map_congr_left
  intro a _
  by_cases h : a.id = oldTx.account_id
  · rw [if_pos h, if_pos h]
    congr 1
    rw [neg_add_eq_sub]
  · rw [if_neg h, if_neg h]

/-- Two accounts (balances 150.00 and 0.00) and the income transaction
t1 of the worked example, sitting on account 1. -/
def twoAccountDB : DB :=
  { accounts := [{ id := 1, initial_balance := 10000, current_balance := 15000 },
                 { id := 2, initial_balance := 0, current_balance := 0 }],
    categories := [],
    transactions := [scenarioTx1] }

theorem update_amount_same_account_delta_witness :
    (updateTransaction twoAccountDB 1 scenarioTx1.account_id none scenarioTx1.type 8000).map
        DB.accounts =
      some (twoAccountDB.accounts.map fun a =>
        if a.id = scenarioTx1.account_id then
          { a with current_balance := a.current_balance +
              (signedAmount scenarioTx1.type 8000 -
                signedAmount scenarioTx1.type scenarioTx1.amount) }
        else a) :=
  update_amount_same_account_delta twoAccountDB 1 scenarioTx1 none 8000 (by decide) (by decide)

/-- C3: moving a transaction with signed contribution c from account A
to a different account B subtracts c from A's current_balance, adds c to
B's current_balance, leaves every other account unchanged, and keeps the
sum of current_balance over all accounts equal to its value before the
move. -/
theorem move_transaction_between_accounts (db : DB) (tid : Nat) (oldTx : Transaction)
    (bid : Nat)
    (hnodup : (db.accounts.map Account.id).Nodup)
    (hfind : findTx db tid = some oldTx)
    (hA : accountExists db oldTx.account_id = true)
    (hB : accountExists db bid = true)
    (hAB : oldTx.account_id ≠ bid) :
    (updateTransaction db tid bid oldTx.category_id oldTx.type oldTx.amount).map DB.accounts =
      some (db.accounts.map fun a =>
        if a.id = oldTx.account_id then
          { a with current_balance :=
              a.current_balance - signedAmount oldTx.type oldTx.amount }
        else if a.id = bid then
          { a with current_balance :=
              a.current_balance + signedAmount oldTx.type oldTx.amount }
        else a) ∧
    (updateTransaction db tid bid oldTx.category_id oldTx.type oldTx.amount).map
        (fun d => totalBalance d.accounts) = some (totalBalance db.accounts) := by
  have hAmem : ∃ a ∈ db.accounts, a.id = oldTx.account_id :=
    (hasAccountId_iff db.accounts oldTx.account_id).mp hA
  have hBmem : ∃ a ∈ db.accounts, a.id = bid :=
    (hasAccountId_iff db.accounts bid).mp hB
  have hupd : updateTransaction db tid bid oldTx.category_id oldTx.type oldTx.amount =
      some { db with
        transactions := db.transactions.map fun t =>
          if t.id = tid then
            { oldTx with account_id := bid, category_id := oldTx.category_id }
          else t,
        accounts := updateTrigger db.accounts oldTx
          { oldTx with account_id := bid, category_id := oldTx.category_id } } := by
    unfold updateTransaction
    rw [hfind]
    simp only [hB, if_true]
  constructor
  · rw [hupd, Option.map_some']
    congr 1
    unfold updateTrigger
    unfold applyDelta
    rw [List.map_map]
    apply List.map_congr_left
    intro a _
    by_cases h1 : a.id = oldTx.account_id
    · have h2 : ¬(a.id = bid) := by rw [h1]; exact hAB
      simp [Function.comp, h1, hAB, sub_eq_add_neg]
    · by_cases h2 : a.id = bid
      · have hBA : bid ≠ oldTx.account_id := fun he => hAB he.symm
        simp [Function.comp, h1, h2, hBA]
      · simp [Function.comp, h1, h2]
  · rw [hupd, Option.map_some']
    congr 1
    unfold updateTrigger
    rw [totalBalance_applyDelta _ _ _ ?n1 ?m1, totalBalance_applyDelta _ _ _ hnodup hAmem]
    · exact neg_add_cancel_right _ _
    case n1 => rw [applyDelta_id_map]; exact hnodup
    case m1 => exact exists_id_applyDelta _ _ _ _ hBmem

theorem move_transaction_between_accounts_witness :
    (updateTransaction twoAccountDB 1 2 scenarioTx1.category_id scenarioTx1.type
        scenarioTx1.amount).map DB.accounts =
      some (twoAccountDB.accounts.map fun a =>
        if a.id = scenarioTx1.account_id then
          { a with current_balance :=
              a.current_balance - signedAmount scenarioTx1.type scenarioTx1.amount }
        else if a.id = 2 then
          { a with current_balance :=
              a.current_balance + signedAmount scenarioTx1.type scenarioTx1.amount }
        else a) ∧
    (updateTransaction twoAccountDB 1 2 scenarioTx1.category_id scenarioTx1.type
        scenarioTx1.amount).map (fun d => totalBalance d.accounts) =
      some (totalBalance twoAccountDB.accounts) :=
  move_transaction_between_accounts twoAccountDB 1 scenarioTx1 2
    (by decide) (by decide) (by decide) (by decide) (by decide)

/-- C4: creating a transaction and then deleting it restores the entire
database state, in particular the current_balance of the transaction's
account and of every other account, to exactly what it was before the
creation: deletion is the inverse of creation. -/
theorem create_then_delete_roundtrip (db db1 : DB) (t : Transaction)
    (hins : insertTransaction db t = some db1) :
    deleteTransaction db1 t.id = db := by
  unfold insertTransaction at hins
  by_cases hc : (accountExists db t.account_id && !txIdUsed db t.id) = true
  case neg =>
    rw [if_neg hc] at hins
    exact absurd hins (by simp)
  rw [if_pos hc] at hins
  have hfresh : txIdUsed db t.id = false := by
    have h2 := (Bool.and_eq_true _ _).mp hc
    have := h2.2
    simpa using this
  have hfreshAll : ∀ t' ∈ db.transactions, ¬t'.id = t.id := by
    simpa [txIdUsed] using hfresh
  have hdb1 : db1 = { db with
      transactions := db.transactions ++ [t],
      accounts := insertTrigger db.accounts t } := by
    cases hins
    rfl
  subst hdb1
  unfold deleteTransaction
  have hfindEq : findTx { db with
      transactions := db.transactions ++ [t],
      accounts := insertTrigger db.accounts t } t.id = some t := by
    unfold findTx
    rw [List.find?_append]
    have h1 : List.find? (fun t' => t'.id == t.id) db.transactions = none :=
      List.find?_eq_none.mpr (fun t' ht' => by simp [hfreshAll t' ht'])
    rw [h1]
    simp [List.find?_cons]
  rw [hfindEq]
  have htx : (db.transactions ++ [t]).filter (fun t' => t'.id != t.id) = db.transactions := by
    rw [List.filter_append]
    have h1 : db.transactions.filter (fun t' => t'.id != t.id) = db.transactions :=
      List.filter_eq_self.mpr (fun t' ht' => by simp [hfreshAll t' ht'])
    have h2 : ([t].filter fun t' => t'.id != t.id) = [] := by simp
    rw [h1, h2, List.append_nil]
  have hacc : deleteTrigger (insertTrigger db.accounts t) t = db.accounts := by
    unfold deleteTrigger insertTrigger
    rw [applyDelta_comp, add_neg_cancel, applyDelta_zero]
  simp only [htx, hacc]

/-- The state after inserting the worked example's t1 into scenarioDB. -/
def afterTx1DB : DB :=
  { accounts := [{ id := 1, initial_balance := 10000, current_balance := 15000 }],
    categories := [],
    transactions := [scenarioTx1] }

theorem create_then_delete_roundtrip_witness :
    deleteTransaction afterTx1DB scenarioTx1.id = scenarioDB :=
  create_then_delete_roundtrip scenarioDB afterTx1DB scenarioTx1 (by decide)

/-- C5: deleting account A removes the account row and exactly the
transactions referencing A (the FK cascade), and leaves every other
account row, current_balance included, bit-for-bit unchanged: the
cascaded delete triggers only ever target the removed account. -/
theorem delete_account_cascade (db : DB) (aid : Nat) :
    deleteAccount db aid =
      { accounts := db.accounts.filter fun a => a.id != aid,
        categories := db.categories,
        transactions := db.transactions.filter fun t => t.account_id != aid } := by
  unfold deleteAccount
  dsimp only
  have hrem : ∀ a ∈ db.accounts.filter (fun a => a.id != aid), a.id ≠ aid := by
    intro a ha
    have := (List.mem_filter.mp ha).2
    simpa using this
  have hfix : ∀ t ∈ db.transactions.filter (fun t => t.account_id == aid),
      deleteTrigger (db.accounts.filter fun a => a.id != aid) t =
        db.accounts.filter fun a => a.id != aid := by
    intro t ht
    have haid : t.account_id = aid := by
      have := (List.mem_filter.mp ht).2
      simpa using this
    unfold deleteTrigger
    rw [haid]
    exact applyDelta_of_forall_ne _ aid _ hrem
  rw [foldl_fixed _ _ _ hfix]

/-- C6: deleting a category deletes no transaction and blocks nothing:
every transaction referencing the category has its reference cleared to
none (all other fields and all other transactions untouched), and the
accounts table is completely unchanged, because each SET NULL row update
fires the balance trigger with identical old and new contributions,
which cancel. -/
theorem delete_category_clears_refs (db : DB) (cid : Nat) :
    deleteCategory db cid =
      { accounts := db.accounts,
        categories := db.categories.filter fun c => c != cid,
        transactions := db.transactions.map (clearCategory cid) } := by
  unfold deleteCategory
  dsimp only
  have hfix : ∀ t ∈ db.transactions.filter (fun t => t.category_id == some cid),
      updateTrigger db.accounts t (clearCategory cid t) = db.accounts := by
    intro t _
    unfold updateTrigger clearCategory
    by_cases h : t.category_id = some cid
    · rw [if_pos h]
      rw [show ({ t with category_id := none } : Transaction).account_id
          = t.account_id from rfl]
      rw [applyDelta_comp, neg_add_cancel, applyDelta_zero]
    · rw [if_neg h]
      rw [applyDelta_comp, neg_add_cancel, applyDelta_zero]
  rw [foldl_fixed _ _ _ hfix]

end WealthAtlas

namespace WealthAtlas

theorem signedSum_cons (t : Transaction) (l : List Transaction) (aid : Nat) :
    signedSum (t :: l) aid =
      (if t.account_id = aid then signedAmount t.type t.amount else 0) + signedSum l aid := rfl

theorem signedSum_append (l1 l2 : List Transaction) (aid : Nat) :
    signedSum (l1 ++ l2) aid = signedSum l1 aid + signedSum l2 aid := by
  induction l1 with
  | nil => simp [signedSum]
  | cons t rest ih =>
    rw [List.cons_append, signedSum_cons, signedSum_cons, ih]
    ring

theorem findTx_mem (db : DB) (tid : Nat) (oldTx : Transaction)
    (h : findTx db tid = some oldTx) : oldTx ∈ db.transactions ∧ oldTx.id = tid := by
  refine ⟨List.mem_of_find?_eq_some h, ?_⟩
  have := List.find?_some h
  simpa using this

theorem map_replace_of_forall_ne (txs : List Transaction) (tid : Nat) (newTx : Transaction)
    (h : ∀ t ∈ txs, ¬(t.id = tid)) :
    txs.map (fun t => if t.id = tid then newTx else t) = txs := by
  induction txs with
  | nil => rfl
  | cons t rest ih =>
    simp only [List.map_cons]
    rw [if_neg (h t (by simp)), ih (fun t' ht' => h t' (by simp [ht']))]

theorem signedSum_map_replace (txs : List Transaction) (tid : Nat)
    (oldTx newTx : Transaction) (x : Nat)
    (hnodup : (txs.map Transaction.id).Nodup)
    (hmem : oldTx ∈ txs) (hid : oldTx.id = tid) :
    signedSum (txs.map fun t => if t.id = tid then newTx else t) x =
      signedSum txs x
        - (if oldTx.account_id = x then signedAmount oldTx.type oldTx.amount else 0)
        + (if newTx.account_id = x then signedAmount newTx.type newTx.amount else 0) := by
  induction txs with
  | nil => cases hmem
  | cons t rest ih =>
    simp only [List.map_cons, List.nodup_cons] at hnodup
    obtain ⟨hna, hrest⟩ := hnodup
    rcases List.mem_cons.mp hmem with rfl | hmemrest
    · have hrepl : ∀ t' ∈ rest, ¬(t'.id = tid) := by
        intro t' ht' he
        apply hna
        rw [hid, ← he]
        exact List.mem_map_of_mem Transaction.id ht'
      rw [List.map_cons, if_pos hid, map_replace_of_forall_ne rest tid newTx hrepl,
        signedSum_cons, signedSum_cons]
      ring
    · have htne : ¬(t.id = tid) := by
        intro he
        apply hna
        rw [he, ← hid]
        exact List.mem_map_of_mem Transaction.id hmemrest
      rw [List.map_cons, if_neg htne, signedSum_cons, signedSum_cons,
        ih hrest hmemrest]
      ring

theorem signedSum_filter_ne (txs : List Transaction) (tid : Nat)
    (oldTx : Transaction) (x : Nat)
    (hnodup : (txs.map Transaction.id).Nodup)
    (hmem : oldTx ∈ txs) (hid : oldTx.id = tid) :
    signedSum (txs.filter fun t => t.id != tid) x =
      signedSum txs x
        - (if oldTx.account_id = x then signedAmount oldTx.type oldTx.amount else 0) := by
  induction txs with
  | nil => cases hmem
  | cons t rest ih =>
    simp only [List.map_cons, List.nodup_cons] at hnodup
    obtain ⟨hna, hrest⟩ := hnodup
    rcases List.mem_cons.mp hmem with rfl | hmemrest
    · have hrepl : ∀ t' ∈ rest, ¬(t'.id = tid) := by
        intro t' ht' he
        apply hna
        rw [hid, ← he]
        exact List.mem_map_of_mem Transaction.id ht'
      have hkeep : rest.filter (fun t => t.id != tid) = rest :=
        List.filter_eq_self.mpr (fun t' ht' => by simp [hrepl t' ht'])
      rw [List.filter_cons, if_neg (by simp [hid]), hkeep, signedSum_cons]
      ring
    · have htne : ¬(t.id = tid) := by
        intro he
        apply hna
        rw [he, ← hid]
        exact List.mem_map_of_mem Transaction.id hmemrest
      rw [List.filter_cons, if_pos (by simp [htne]), signedSum_cons, signedSum_cons,
        ih hrest hmemrest]
      ring

theorem balance_applyDelta_shift (accs : List Account) (g g' : Nat → Int)
    (aid : Nat) (d : Int)
    (hshift : ∀ x, g' x = g x + (if x = aid then d else 0))
    (hbal : ∀ a ∈ accs, a.current_balance = a.initial_balance + g a.id) :
    ∀ a' ∈ applyDelta accs aid d,
      a'.current_balance = a'.initial_balance + g' a'.id := by
  intro a' ha'
  obtain ⟨a, ha, rfl⟩ := List.mem_map.mp ha'
  by_cases h : a.id = aid
  · rw [if_pos h]
    show a.current_balance + d = a.initial_balance + g' a.id
    rw [hshift, if_pos h, hbal a ha]
    ring
  · rw [if_neg h]
    rw [hshift, if_neg h, add_zero]
    exact hbal a ha

end WealthAtlas

namespace WealthAtlas

instance (db : DB) : Decidable (WellFormed db) :=
  inferInstanceAs (Decidable ((db.accounts.map Account.id).Nodup ∧
    (db.transactions.map Transaction.id).Nodup ∧
    ∀ t ∈ db.transactions, hasAccountId db.accounts t.account_id = true))

instance (db : DB) : Decidable (BalanceInvariant db) :=
  inferInstanceAs (Decidable (∀ a ∈ db.accounts,
    a.current_balance = a.initial_balance + signedSum db.transactions a.id))

theorem insertTransaction_eq (db db1 : DB) (t : Transaction)
    (hins : insertTransaction db t = some db1) :
    accountExists db t.account_id = true ∧ txIdUsed db t.id = false ∧
      db1 = { db with
        transactions := db.transactions ++ [t],
        accounts := insertTrigger db.accounts t } := by
  unfold insertTransaction at hins
  by_cases hc : (accountExists db t.account_id && !txIdUsed db t.id) = true
  · have h := (Bool.and_eq_true _ _).mp hc
    refine ⟨h.1, by simpa using h.2, ?_⟩
    rw [if_pos hc] at hins
    cases hins
    rfl
  · rw [if_neg hc] at hins
    cases hins

theorem updateTransaction_eq (db db1 : DB) (tid aid : Nat) (cat : Option Nat)
    (ty : TransactionType) (m : Int)
    (hupd : updateTransaction db tid aid cat ty m = some db1) :
    ∃ oldTx, findTx db tid = some oldTx ∧ accountExists db aid = true ∧
      db1 = { db with
        transactions := db.transactions.map fun t =>
          if t.id = tid then
            { oldTx with account_id := aid, category_id := cat, type := ty, amount := m }
          else t,
        accounts := updateTrigger db.accounts oldTx
          { oldTx with
            account_id := aid, category_id := cat, type := ty, amount := m } } := by
  unfold updateTransaction at hupd
  cases hfind : findTx db tid with
  | none =>
    rw [hfind] at hupd
    cases hupd
  | some oldTx =>
    rw [hfind] at hupd
    by_cases hacc : accountExists db aid = true
    · simp only [hacc, if_true] at hupd
      cases hupd
      exact ⟨oldTx, rfl, hacc, rfl⟩
    · simp only [if_neg hacc] at hupd
      exact absurd hupd (by simp)

theorem wf_insert (db db1 : DB) (t : Transaction) (hwf : WellFormed db)
    (hins : insertTransaction db t = some db1) : WellFormed db1 := by
  obtain ⟨hacc, hfresh, rfl⟩ := insertTransaction_eq db db1 t hins
  obtain ⟨hn1, hn2, href⟩ := hwf
  refine ⟨?_, ?_, ?_⟩
  · show ((insertTrigger db.accounts t).map Account.id).Nodup
    unfold insertTrigger
    rw [applyDelta_id_map]
    exact hn1
  · show ((db.transactions ++ [t]).map Transaction.id).Nodup
    rw [List.map_append, List.nodup_append]
    refine ⟨hn2, by simp, ?_⟩
    intro x hx
    simp only [List.map_cons, List.map_nil, List.mem_singleton]
    intro hxe
    obtain ⟨t', ht', hid⟩ := List.mem_map.mp hx
    have hall : ∀ t0 ∈ db.transactions, ¬t0.id = t.id := by
      simpa [txIdUsed] using hfresh
    exact hall t' ht' (by rw [hid, hxe])
  · intro t' ht'
    show hasAccountId (insertTrigger db.accounts t) t'.account_id = true
    unfold insertTrigger
    rw [hasAccountId_applyDelta]
    rcases List.mem_append.mp ht' with h | h
    · exact href t' h
    · have ht : t' = t := by simpa using h
      subst ht
      exact hacc

theorem wf_update (db db1 : DB) (tid aid : Nat) (cat : Option Nat)
    (ty : TransactionType) (m : Int) (hwf : WellFormed db)
    (hupd : updateTransaction db tid aid cat ty m = some db1) : WellFormed db1 := by
  obtain ⟨oldTx, hfind, hacc, rfl⟩ := updateTransaction_eq db db1 tid aid cat ty m hupd
  obtain ⟨hn1, hn2, href⟩ := hwf
  obtain ⟨hmem, hid⟩ := findTx_mem db tid oldTx hfind
  refine ⟨?_, ?_, ?_⟩
  · show ((updateTrigger db.accounts oldTx _).map Account.id).Nodup
    unfold updateTrigger
    rw [applyDelta_id_map, applyDelta_id_map]
    exact hn1
  · have hids : ((db.transactions.map fun t =>
        if t.id = tid then
          { oldTx with account_id := aid, category_id := cat, type := ty, amount := m }
        else t).map Transaction.id) = db.transactions.map Transaction.id := by
      rw [List.map_map]
      apply List.map_congr_left
      intro t _
      by_cases h : t.id = tid
      · simp [Function.comp, h, hid]
      · simp [Function.comp, h]
    show ((db.transactions.map _).map Transaction.id).Nodup
    rw [hids]
    exact hn2
  · intro t' ht'
    show hasAccountId (updateTrigger db.accounts oldTx _) t'.account_id = true
    unfold updateTrigger
    rw [hasAccountId_applyDelta, hasAccountId_applyDelta]
    obtain ⟨t0, ht0, rfl⟩ := List.mem_map.mp ht'
    by_cases h : t0.id = tid
    · rw [if_pos h]
      exact hacc
    · rw [if_neg h]
      exact href t0 ht0

theorem wf_delete (db : DB) (tid : Nat) (hwf : WellFormed db) :
    WellFormed (deleteTransaction db tid) := by
  unfold deleteTransaction
  cases hfind : findTx db tid with
  | none => exact hwf
  | some oldTx =>
    obtain ⟨hn1, hn2, href⟩ := hwf
    refine ⟨?_, ?_, ?_⟩
    · show ((deleteTrigger db.accounts oldTx).map Account.id).Nodup
      unfold deleteTrigger
      rw [applyDelta_id_map]
      exact hn1
    · exact List.Nodup.sublist (List.Sublist.map _ (List.filter_sublist _)) hn2
    · intro t' ht'
      show hasAccountId (deleteTrigger db.accounts oldTx) t'.account_id = true
      unfold deleteTrigger
      rw [hasAccountId_applyDelta]
      exact href t' (List.mem_of_mem_filter ht')

theorem inv_insert (db db1 : DB) (t : Transaction) (hinv : BalanceInvariant db)
    (hins : insertTransaction db t = some db1) : BalanceInvariant db1 := by
  obtain ⟨hacc, hfresh, rfl⟩ := insertTransaction_eq db db1 t hins
  intro a' ha'
  have hshift : ∀ x : Nat, signedSum (db.transactions ++ [t]) x =
      signedSum db.transactions x +
        (if x = t.account_id then signedAmount t.type t.amount else 0) := by
    intro x
    rw [signedSum_append, signedSum_cons]
    have h0 : signedSum ([] : List Transaction) x = 0 := rfl
    rw [h0, add_zero]
    congr 1
    by_cases h : t.account_id = x
    · rw [if_pos h, if_pos h.symm]
    · rw [if_neg h, if_neg (fun he => h he.symm)]
  exact balance_applyDelta_shift db.accounts
    (fun x => signedSum db.transactions x)
    (fun x => signedSum (db.transactions ++ [t]) x)
    t.account_id (signedAmount t.type t.amount) hshift hinv a' ha'

theorem inv_update (db db1 : DB) (tid aid : Nat) (cat : Option Nat)
    (ty : TransactionType) (m : Int) (hwf : WellFormed db)
    (hinv : BalanceInvariant db)
    (hupd : updateTransaction db tid aid cat ty m = some db1) : BalanceInvariant db1 := by
  obtain ⟨oldTx, hfind, hacc, rfl⟩ := updateTransaction_eq db db1 tid aid cat ty m hupd
  obtain ⟨hn1, hn2, href⟩ := hwf
  obtain ⟨hmem, hid⟩ := findTx_mem db tid oldTx hfind
  intro a' ha'
  have hbal1 : ∀ a ∈ applyDelta db.accounts oldTx.account_id
      (-signedAmount oldTx.type oldTx.amount),
      a.current_balance = a.initial_balance +
        (signedSum db.transactions a.id +
          (if a.id = oldTx.account_id then -signedAmount oldTx.type oldTx.amount else 0)) :=
    balance_applyDelta_shift db.accounts
      (fun x => signedSum db.transactions x)
      (fun x => signedSum db.transactions x +
        (if x = oldTx.account_id then -signedAmount oldTx.type oldTx.amount else 0))
      oldTx.account_id (-signedAmount oldTx.type oldTx.amount) (fun x => rfl) hinv
  have hshift : ∀ x : Nat, signedSum (db.transactions.map fun t =>
      if t.id = tid then
        { oldTx with account_id := aid, category_id := cat, type := ty, amount := m }
      else t) x =
      (signedSum db.transactions x +
        (if x = oldTx.account_id then -signedAmount oldTx.type oldTx.amount else 0)) +
        (if x = aid then signedAmount ty m else 0) := by
    intro x
    rw [signedSum_map_replace db.transactions tid oldTx
      { oldTx with account_id := aid, category_id := cat, type := ty, amount := m }
      x hn2 hmem hid]
    show signedSum db.transactions x
        - (if oldTx.account_id = x then signedAmount oldTx.type oldTx.amount else 0)
        + (if aid = x then signedAmount ty m else 0) = _
    by_cases h1 : oldTx.account_id = x
    · by_cases h2 : aid = x
      · rw [if_pos h1, if_pos h2, if_pos h1.symm, if_pos h2.symm]
        ring
      · rw [if_pos h1, if_neg h2, if_pos h1.symm, if_neg (fun he => h2 he.symm)]
        ring
    · by_cases h2 : aid = x
      · rw [if_pos h2, if_neg h1, if_neg (fun he => h1 he.symm), if_pos h2.symm]
        ring
      · rw [if_neg h1, if_neg h2, if_neg (fun he => h1 he.symm),
          if_neg (fun he => h2 he.symm)]
        ring
  exact balance_applyDelta_shift
    (applyDelta db.accounts oldTx.account_id (-signedAmount oldTx.type oldTx.amount))
    (fun x => signedSum db.transactions x +
      (if x = oldTx.account_id then -signedAmount oldTx.type oldTx.amount else 0))
    (fun x => signedSum (db.transactions.map fun t =>
      if t.id = tid then
        { oldTx with account_id := aid, category_id := cat, type := ty, amount := m }
      else t) x)
    aid (signedAmount ty m) hshift hbal1 a' ha'

theorem inv_delete (db : DB) (tid : Nat) (hwf : WellFormed db)
    (hinv : BalanceInvariant db) : BalanceInvariant (deleteTransaction db tid) := by
  cases hfind : findTx db tid with
  | none =>
    have hdel : deleteTransaction db tid = db := by
      unfold deleteTransaction
      rw [hfind]
    rw [hdel]
    exact hinv
  | some oldTx =>
    have hdel : deleteTransaction db tid = { db with
        transactions := db.transactions.filter fun t => t.id != tid,
        accounts := deleteTrigger db.accounts oldTx } := by
      unfold deleteTransaction
      rw [hfind]
    rw [hdel]
    obtain ⟨hn1, hn2, href⟩ := hwf
    obtain ⟨hmem, hid⟩ := findTx_mem db tid oldTx hfind
    intro a' ha'
    have hshift : ∀ x : Nat, signedSum (db.transactions.filter fun t => t.id != tid) x =
        signedSum db.transactions x +
          (if x = oldTx.account_id then -signedAmount oldTx.type oldTx.amount else 0) := by
      intro x
      rw [signedSum_filter_ne db.transactions tid oldTx x hn2 hmem hid]
      by_cases h : oldTx.account_id = x
      · rw [if_pos h, if_pos h.symm, sub_eq_add_neg]
      · rw [if_neg h, if_neg (fun he => h he.symm), sub_zero, add_zero]
    exact balance_applyDelta_shift db.accounts
      (fun x => signedSum db.transactions x)
      (fun x => signedSum (db.transactions.filter fun t => t.id != tid) x)
      oldTx.account_id (-signedAmount oldTx.type oldTx.amount) hshift hinv a' ha'

theorem applyOp_preserves (db : DB) (op : Op) (hwf : WellFormed db)
    (hinv : BalanceInvariant db) :
    WellFormed (applyOp db op) ∧ BalanceInvariant (applyOp db op) := by
  cases op with
  | create t =>
    simp only [applyOp]
    cases hins : insertTransaction db t with
    | none =>
      simp only [Option.getD_none]
      exact ⟨hwf, hinv⟩
    | some db1 =>
      simp only [Option.getD_some]
      exact ⟨wf_insert db db1 t hwf hins, inv_insert db db1 t hinv hins⟩
  | update tid aid cat ty m =>
    simp only [applyOp]
    cases hupd : updateTransaction db tid aid cat ty m with
    | none =>
      simp only [Option.getD_none]
      exact ⟨hwf, hinv⟩
    | some db1 =>
      simp only [Option.getD_some]
      exact ⟨wf_update db db1 tid aid cat ty m hwf hupd,
        inv_update db db1 tid aid cat ty m hwf hinv hupd⟩
  | delete tid =>
    simp only [applyOp]
    exact ⟨wf_delete db tid hwf, inv_delete db tid hwf hinv⟩

/-- C1: starting from any well-formed state satisfying the balance
invariant, after every finite sequence of transaction create, update and
delete operations processed by the balance maintainer (rejected
mutations leaving the state unchanged), every account's current_balance
equals its initial_balance plus the sum of the signed contributions of
exactly the transactions currently referencing it; since this holds for
every list of operations, it holds after each prefix, i.e. after each
completed operation. -/
theorem balance_invariant_all_ops (db : DB) (hwf : WellFormed db)
    (hinv : BalanceInvariant db) (ops : List Op) :
    BalanceInvariant (List.foldl applyOp db ops) := by
  suffices h : ∀ (ops : List Op) (db : DB), WellFormed db → BalanceInvariant db →
      WellFormed (List.foldl applyOp db ops) ∧
        BalanceInvariant (List.foldl applyOp db ops) by
    exact (h ops db hwf hinv).2
  intro ops
  induction ops with
  | nil =>
    intro db h1 h2
    exact ⟨h1, h2⟩
  | cons op rest ih =>
    intro db h1 h2
    rw [List.foldl_cons]
    obtain ⟨h1', h2'⟩ := applyOp_preserves db op h1 h2
    exact ih _ h1' h2'

theorem balance_invariant_all_ops_witness :
    BalanceInvariant (List.foldl applyOp scenarioDB scenarioOps) :=
  balance_invariant_all_ops scenarioDB (by decide) (by decide) scenarioOps

end WealthAtlas

namespace WealthAtlas

/-- Insertion step for ordering transactions by date descending (the
ORDER BY date DESC of the Dashboard fetch; ties resolved arbitrarily,
as the query does not specify a tiebreaker). -/
def insertByDateDesc (t : Transaction) : List Transaction → List Transaction
  | [] => [t]
  | h :: rest => if h.date ≤ t.date then t :: h :: rest else h :: insertByDateDesc t rest

/-- Transactions ordered by date descending. -/
def sortByDateDesc (txs : List Transaction) : List Transaction :=
  txs.foldr insertByDateDesc []

/-- The Dashboard fetch (Dashboard.fetchData): all transactions ordered
by date descending, limited to 50 rows. -/
def fetchTransactions (db : DB) : List Transaction :=
  (sortByDateDesc db.transactions).take 50

/-- Sum of the amount column over a list of transactions (the reduce in
Dashboard.calculateTotals). -/
def sumAmounts (txs : List Transaction) : Int :=
  (txs.map Transaction.amount).foldr (· + ·) 0

/-- The three summary figures of the Dashboard. -/
structure Totals where
  totalIncome : Int
  totalExpenses : Int
  totalBalance : Int
deriving DecidableEq, Repr

/-- Dashboard.calculateTotals: income and expense totals are sums over
the (fetched) transaction list, optionally filtered to one account;
the balance total is the sum of the accounts' current_balance (or the
selected account's current_balance, defaulting to 0 when absent). -/
def calculateTotals (accounts : List Account) (transactions : List Transaction)
    (selectedAccount : Option Nat) : Totals :=
  let filtered := match selectedAccount with
    | none => transactions
    | some aid => transactions.filter fun t => t.account_id == aid
  let totalIncome := sumAmounts (filtered.filter fun t => t.type == TransactionType.income)
  let totalExpenses := sumAmounts (filtered.filter fun t => t.type == TransactionType.expense)
  let totalBalance := match selectedAccount with
    | none => (accounts.map Account.current_balance).foldr (· + ·) 0
    | some aid => ((accounts.find? fun a => a.id == aid).map Account.current_balance).getD 0
  { totalIncome := totalIncome, totalExpenses := totalExpenses, totalBalance := totalBalance }

theorem insertByDateDesc_perm (t : Transaction) (l : List Transaction) :
    (insertByDateDesc t l).Perm (t :: l) := by
  induction l with
  | nil => exact List.Perm.refl _
  | cons h rest ih =>
    unfold insertByDateDesc
    by_cases hc : h.date ≤ t.date
    · rw [if_pos hc]
    · rw [if_neg hc]
      exact (List.Perm.cons h ih).trans (List.Perm.swap t h rest)

theorem sortByDateDesc_perm (txs : List Transaction) : (sortByDateDesc txs).Perm txs := by
  induction txs with
  | nil => exact List.Perm.refl _
  | cons t rest ih =>
    show (insertByDateDesc t (List.foldr insertByDateDesc [] rest)).Perm (t :: rest)
    exact (insertByDateDesc_perm t _).trans (List.Perm.cons t ih)

/-- C10: with no account filter selected, the Dashboard's Total Income
and Total Expenses are sums over exactly the fetched transaction list,
which is the 50 most recent by date; when more than 50 transactions are
persisted the fetched list has exactly 50 entries and some persisted
transaction is excluded from it (hence from those totals), while Total
Balance is the sum of the accounts' current_balance and therefore, by
the balance invariant, reflects every persisted transaction. -/
theorem dashboard_totals_cap50 (db : DB) (hwf : WellFormed db)
    (hinv : BalanceInvariant db) :
    (calculateTotals db.accounts (fetchTransactions db) none).totalIncome =
      sumAmounts ((fetchTransactions db).filter fun t => t.type == TransactionType.income) ∧
    (calculateTotals db.accounts (fetchTransactions db) none).totalExpenses =
      sumAmounts ((fetchTransactions db).filter fun t => t.type == TransactionType.expense) ∧
    (50 < db.transactions.length →
      (fetchTransactions db).length = 50 ∧
        ∃ t ∈ db.transactions, t ∉ fetchTransactions db) ∧
    (calculateTotals db.accounts (fetchTransactions db) none).totalBalance =
      (db.accounts.map fun a => a.initial_balance + signedSum db.transactions a.id).foldr
        (· + ·) 0 := by
  refine ⟨rfl, rfl, ?_, ?_⟩
  · intro hlen
    have hperm := sortByDateDesc_perm db.transactions
    have hlensort : (sortByDateDesc db.transactions).length = db.transactions.length :=
      hperm.length_eq
    constructor
    · show (List.take 50 (sortByDateDesc db.transactions)).length = 50
      rw [List.length_take, hlensort]
      omega
    · have hdropne : (sortByDateDesc db.transactions).drop 50 ≠ [] := by
        intro he
        have hle := List.drop_eq_nil_iff.mp he
        omega
      refine ⟨((sortByDateDesc db.transactions).drop 50).head hdropne, ?_, ?_⟩
      · have htmem : ((sortByDateDesc db.transactions).drop 50).head hdropne ∈
            sortByDateDesc db.transactions :=
          (List.drop_sublist 50 _).subset (List.head_mem hdropne)
        exact hperm.mem_iff.mp htmem
      · intro htake
        have hnd_ids_sorted : ((sortByDateDesc db.transactions).map Transaction.id).Nodup :=
          ((hperm.map Transaction.id).nodup_iff).mpr hwf.2.1
        have hnd_sorted : (sortByDateDesc db.transactions).Nodup :=
          hnd_ids_sorted.of_map
        have happ : ((sortByDateDesc db.transactions).take 50 ++
            (sortByDateDesc db.transactions).drop 50).Nodup := by
          rw [List.take_append_drop]
          exact hnd_sorted
        exact (List.nodup_append.mp happ).2.2 htake (List.head_mem hdropne)
  · show (db.accounts.map Account.current_balance).foldr (· + ·) 0 = _
    congr 1
    apply List.map_congr_left
    intro a ha
    exact hinv a ha

/-- 51 income transactions of 1.00 each, ids and dates 0 to 50, all on
account 1. -/
def manyTxs : List Transaction :=
  (List.range 51).map fun i =>
    { id := i, account_id := 1, category_id := none,
      type := TransactionType.income, amount := 100, date := i }

/-- One account whose current_balance 51.00 reflects all 51
transactions. -/
def manyDB : DB :=
  { accounts := [{ id := 1, initial_balance := 0, current_balance := 5100 }],
    categories := [],
    transactions := manyTxs }

theorem dashboard_totals_cap50_witness :
    (calculateTotals manyDB.accounts (fetchTransactions manyDB) none).totalIncome = 5000 ∧
    ((calculateTotals manyDB.accounts (fetchTransactions manyDB) none).totalIncome =
      sumAmounts ((fetchTransactions manyDB).filter fun t =>
        t.type == TransactionType.income) ∧
    (calculateTotals manyDB.accounts (fetchTransactions manyDB) none).totalExpenses =
      sumAmounts ((fetchTransactions manyDB).filter fun t =>
        t.type == TransactionType.expense) ∧
    (50 < manyDB.transactions.length →
      (fetchTransactions manyDB).length = 50 ∧
        ∃ t ∈ manyDB.transactions, t ∉ fetchTransactions manyDB) ∧
    (calculateTotals manyDB.accounts (fetchTransactions manyDB) none).totalBalance =
      (manyDB.accounts.map fun a =>
        a.initial_balance + signedSum manyDB.transactions a.id).foldr (· + ·) 0) :=
  ⟨by decide, dashboard_totals_cap50 manyDB (by decide) (by decide)⟩

end WealthAtlas
